import Mathlib

/-!
Shallow embedding of `es1d/pushers.py`: spectral right-hand-side operators for a
one-dimensional electrostatic plasma fluid model.

Arrays of length `N` are modelled as functions `ZMod N → ℝ` (or `ℂ`), so that the
cyclic index arithmetic of the discrete Fourier transform is native.  `jnp.fft.fft`
and `jnp.fft.ifft` follow the numpy convention `F k = ∑ j, f j · exp (-2πi·j·k/N)`,
which is exactly `ZMod.dft`; `jnp.fft.rfft` / `jnp.fft.irfft` act between a real
array of even length `2M` and its half spectrum of length `M + 1`.
-/

namespace ES1D

open Finset Complex

/-! ## Full-spectrum transforms: jnp.fft.fft and jnp.fft.ifft -/

variable {N : ℕ} [NeZero N]

/-- Embeds `jnp.fft.fft`, numpy convention: `fft f k = ∑ j, f j · exp (-2πi j k / N)`. -/
noncomputable def fft (f : ZMod N → ℂ) : ZMod N → ℂ := ZMod.dft f

/-- Embeds `jnp.fft.ifft`, numpy convention: `ifft v j = (1/N) ∑ k, v k · exp (2πi j k / N)`. -/
noncomputable def ifft (v : ZMod N → ℂ) : ZMod N → ℂ := (ZMod.dft).symm v

theorem fft_apply (f : ZMod N → ℂ) (k : ZMod N) :
    fft f k = ∑ j : ZMod N, ZMod.stdAddChar (-(j * k)) * f j := by
  simp only [fft, ZMod.dft_apply, smul_eq_mul]

theorem ifft_apply (v : ZMod N → ℂ) (j : ZMod N) :
    ifft v j = (N : ℂ)⁻¹ * ∑ k : ZMod N, ZMod.stdAddChar (k * j) * v k := by
  simp only [ifft, ZMod.invDFT_apply, smul_eq_mul]

theorem ifft_fft (f : ZMod N → ℂ) : ifft (fft f) = f := by
  simp only [ifft, fft, LinearEquiv.symm_apply_apply]

/-- Sum of the standard additive character along a line: `N` when the slope is `0`,
else `0`. -/
theorem sum_stdAddChar_mul (t : ZMod N) :
    ∑ j : ZMod N, ZMod.stdAddChar (t * j) = if t = 0 then (N : ℂ) else 0 := by
  split_ifs with h
  · simp only [h, zero_mul, AddChar.map_zero_eq_one, sum_const, card_univ, ZMod.card,
      nsmul_eq_mul, mul_one]
  · exact AddChar.sum_eq_zero_of_ne_one (ZMod.isPrimitive_stdAddChar N h)

/-- The sum over all grid points of an inverse transform is the `k = 0` spectral
coefficient. -/
theorem sum_ifft (v : ZMod N → ℂ) : ∑ j : ZMod N, ifft v j = v 0 := by
  have hN : (N : ℂ) ≠ 0 := Nat.cast_ne_zero.mpr (NeZero.ne N)
  calc ∑ j : ZMod N, ifft v j
      = (N : ℂ)⁻¹ * ∑ j : ZMod N, ∑ k : ZMod N, ZMod.stdAddChar (k * j) * v k := by
        simp only [ifft_apply, mul_sum]
    _ = (N : ℂ)⁻¹ * ∑ k : ZMod N, (∑ j : ZMod N, ZMod.stdAddChar (k * j)) * v k := by
        rw [sum_comm]
        simp only [sum_mul]
    _ = v 0 := by
        simp only [sum_stdAddChar_mul]
        rw [Finset.sum_eq_single 0]
        · simp [hN, inv_mul_cancel_left₀]
        · intro b _ hb
          simp [hb]
        · intro h
          exact absurd (mem_univ 0) h

/-- Conjugating the standard additive character negates its argument. -/
theorem stdAddChar_conj (x : ZMod N) :
    (starRingEnd ℂ) (ZMod.stdAddChar x) = ZMod.stdAddChar (-x) := by
  have hx : ((x.val : ℤ) : ZMod N) = x := by simp
  have h1 : ZMod.stdAddChar x = Complex.exp (2 * Real.pi * I * x.val / N) := by
    conv_lhs => rw [← hx]
    rw [ZMod.stdAddChar_coe]
    norm_num
  have h2 : ZMod.stdAddChar (-x) = Complex.exp (-(2 * Real.pi * I * x.val / N)) := by
    conv_lhs => rw [← hx, ← Int.cast_neg]
    rw [ZMod.stdAddChar_coe]
    congr 1
    push_cast
    ring
  rw [h1, h2, ← Complex.exp_conj]
  congr 1
  simp only [map_div₀, map_mul, Complex.conj_I, Complex.conj_natCast, Complex.conj_ofReal,
    map_ofNat]
  ring

/-- Hermitian symmetry: the transform of a real array satisfies
`F (-k) = conj (F k)`. -/
theorem fft_real_neg (f : ZMod N → ℝ) (k : ZMod N) :
    fft (fun i => (f i : ℂ)) (-k) = (starRingEnd ℂ) (fft (fun i => (f i : ℂ)) k) := by
  rw [fft_apply, fft_apply, map_sum]
  refine Finset.sum_congr rfl fun j _ => ?_
  rw [map_mul, stdAddChar_conj, Complex.conj_ofReal]
  congr 2
  ring

/-! ## Half-spectrum transforms: jnp.fft.rfft and jnp.fft.irfft (even length 2M) -/

variable {M : ℕ} [NeZero M]

instance two_mul_neZero : NeZero (2 * M) := ⟨mul_ne_zero two_ne_zero (NeZero.ne M)⟩

/-- Embeds `jnp.fft.rfft` on a real array of even length `2M`: the first `M + 1` coefficients
of the full transform. -/
noncomputable def rfft (f : ZMod (2 * M) → ℝ) : Fin (M + 1) → ℂ :=
  fun k => fft (fun i => (f i : ℂ)) (k.val : ZMod (2 * M))

/-- The Hermitian extension of a half spectrum to a full spectrum, as `jnp.fft.irfft`
reconstructs it: coefficients above the Nyquist index are conjugates of their mirror
images. -/
noncomputable def hermExtend (v : Fin (M + 1) → ℂ) : ZMod (2 * M) → ℂ :=
  fun k =>
    if h : k.val ≤ M then v ⟨k.val, Nat.lt_succ_of_le h⟩
    else (starRingEnd ℂ) (v ⟨2 * M - k.val, by omega⟩)

/-- Embeds `jnp.fft.irfft` on a half spectrum of length `M + 1`: inverse full transform of the
Hermitian extension, real part taken (the output of numpy's `irfft` is real). -/
noncomputable def irfft (v : Fin (M + 1) → ℂ) : ZMod (2 * M) → ℝ :=
  fun j => (ifft (hermExtend v) j).re

theorem hermExtend_rfft (f : ZMod (2 * M) → ℝ) :
    hermExtend (rfft f) = fft (fun i => (f i : ℂ)) := by
  funext k
  unfold hermExtend rfft
  split
  · congr 1
    exact ZMod.natCast_zmod_val k
  · have hk : k.val < 2 * M := ZMod.val_lt k
    have hcast : ((2 * M - k.val : ℕ) : ZMod (2 * M)) = -k := by
      have hle : k.val ≤ 2 * M := le_of_lt hk
      rw [Nat.cast_sub hle, ZMod.natCast_self, ZMod.natCast_zmod_val, zero_sub]
    rw [hcast, fft_real_neg, RingHomCompTriple.comp_apply, RingHom.id_apply]

/-- Theorem: `irfft` inverts `rfft` on real arrays of even length. -/
theorem irfft_rfft (f : ZMod (2 * M) → ℝ) : irfft (rfft f) = f := by
  funext j
  unfold irfft
  rw [hermExtend_rfft, ifft_fft]
  exact Complex.ofReal_re (f j)

omit [NeZero M] in
theorem hermExtend_zero : hermExtend (M := M) (fun _ => 0) = fun _ => 0 := by
  funext k
  unfold hermExtend
  split <;> simp

theorem fft_zeroFun : fft (N := N) (fun _ => (0 : ℂ)) = fun _ => 0 := by
  funext k
  rw [fft_apply]
  simp

theorem ifft_zeroFun : ifft (N := N) (fun _ => (0 : ℂ)) = fun _ => 0 := by
  funext j
  rw [ifft_apply]
  simp

theorem irfft_zero : irfft (M := M) (fun _ => 0) = fun _ => 0 := by
  funext j
  unfold irfft
  rw [hermExtend_zero, ifft_zeroFun]
  simp

/-! ## The spectral differentiator: gradient(arr, kx) -/

/-- Embeds `gradient(arr, kx) = jnp.real(jnp.fft.ifft(1j * kx * jnp.fft.fft(arr)))`. -/
noncomputable def gradient (arr : ZMod N → ℝ) (kx : ZMod N → ℝ) : ZMod N → ℝ :=
  fun j => (ifft (fun k => Complex.I * (kx k : ℂ) * fft (fun i => (arr i : ℂ)) k) j).re

theorem gradient_zero (kx : ZMod N → ℝ) : gradient (fun _ => 0) kx = fun _ => 0 := by
  funext j
  show (ifft (fun k => Complex.I * (kx k : ℂ) * fft (fun i => ((0 : ℝ) : ℂ)) k) j).re = 0
  have hf : fft (N := N) (fun i => ((0 : ℝ) : ℂ)) = fun _ => 0 := by
    have h : (fun i : ZMod N => ((0 : ℝ) : ℂ)) = fun _ => (0 : ℂ) := by
      funext i
      exact Complex.ofReal_zero
    rw [h]
    exact fft_zeroFun
  rw [hf]
  have hv : (fun k : ZMod N => Complex.I * (kx k : ℂ) * (0 : ℂ)) = fun _ => (0 : ℂ) := by
    funext k
    ring
  rw [hv, ifft_zeroFun]
  simp

/-- The full transform of a constant array is concentrated at the zero mode. -/
theorem fft_const (c : ℂ) (k : ZMod N) :
    fft (fun _ => c) k = if k = 0 then (N : ℂ) * c else 0 := by
  rw [fft_apply]
  have : ∀ j : ZMod N, ZMod.stdAddChar (-(j * k)) * c = ZMod.stdAddChar ((-k) * j) * c := by
    intro j
    congr 2
    ring
  rw [Finset.sum_congr rfl fun j _ => this j, ← Finset.sum_mul, sum_stdAddChar_mul]
  simp [neg_eq_zero]

/-- Differentiating a constant array yields zero whenever `kx 0 = 0` (standard FFT
wavenumber ordering). -/
theorem gradient_const (kx : ZMod N → ℝ) (hkx : kx 0 = 0) (c : ℝ) :
    gradient (fun _ => c) kx = fun _ => 0 := by
  funext j
  show (ifft (fun k => Complex.I * (kx k : ℂ) * fft (fun i => (c : ℂ)) k) j).re = 0
  have hv : (fun k : ZMod N => Complex.I * (kx k : ℂ) * fft (fun i : ZMod N => (c : ℂ)) k)
      = fun _ => (0 : ℂ) := by
    funext k
    rcases eq_or_ne k 0 with hk | hk
    · simp [hk, hkx]
    · rw [fft_const]
      simp [hk]
  rw [hv, ifft_zeroFun]
  simp

/-! ## np.linspace, jnp.interp, and get_complex_frequency_table -/

/-- Piecewise-linear evaluation along consecutive table segments; used by `interp`
inside the table's range. -/
noncomputable def interpSegs : List (ℝ × ℝ) → ℝ → ℝ
  | [], _ => 0
  | [(_, y0)], _ => y0
  | (x0, y0) :: (x1, y1) :: rest, x =>
      if x ≤ x1 then y0 + (y1 - y0) * (x - x0) / (x1 - x0)
      else interpSegs ((x1, y1) :: rest) x

/-- Embeds `jnp.interp(x, xp, fp, left, right)` for a strictly increasing table `xp`: `left`
below the table, `right` above it, piecewise-linear in between. -/
noncomputable def interp (x : ℝ) (xp fp : List ℝ) (left right : ℝ) : ℝ :=
  match xp with
  | [] => 0
  | x0 :: rest =>
      if x < x0 then left
      else if List.getLast (x0 :: rest) (List.cons_ne_nil x0 rest) < x then right
      else interpSegs ((x0 :: rest).zip fp) x

/-- Embeds `np.linspace(0.2, 0.4, 128)`: 128 evenly spaced samples including both endpoints. -/
noncomputable def klds128 : Fin 128 → ℝ := fun i => 0.2 + i.val * ((0.4 - 0.2) / 127)

/-- Modelled from the spec: the external dispersion-relation root solver
`get_roots_to_electrostatic_dispersion` (imported from `theory.electrostatic`, which is
not part of this repository) is a black-box deterministic function
`solve(density_ratio, temperature_ratio, normalized_wavenumber) -> complex`; it is
passed as an explicit parameter throughout this development. -/
abbrev SolverFn : Type := ℝ → ℝ → ℝ → ℂ

/-- Real parts of the tabulated roots: `wrs[i] = Re(solve(1.0, 1.0, klds[i]))`. -/
noncomputable def wrs_table (solve : SolverFn) : Fin 128 → ℝ :=
  fun i => (solve 1.0 1.0 (klds128 i)).re

/-- Imaginary parts of the tabulated roots: `wis[i] = Im(solve(1.0, 1.0, klds[i]))`. -/
noncomputable def wis_table (solve : SolverFn) : Fin 128 → ℝ :=
  fun i => (solve 1.0 1.0 (klds128 i)).im

/-- Embeds `get_complex_frequency_table(num)`.  `klds = np.linspace(0.2, 0.4, 128)` always has
128 entries; `wrs` and `wis` start as `np.zeros(num)` and are filled by a loop running
over all 128 table rows, so an `IndexError` occurs (modelled as `none`) when
`num < 128`, and trailing zeros remain when `num > 128`.  Returns `(wrs, wis, klds)`. -/
noncomputable def get_complex_frequency_table (solve : SolverFn) (num : ℕ) :
    Option (List ℝ × List ℝ × List ℝ) :=
  if 128 ≤ num then
    some
      (List.ofFn (fun i : Fin num => if h : i.val < 128 then wrs_table solve ⟨i.val, h⟩ else 0),
       List.ofFn (fun i : Fin num => if h : i.val < 128 then wis_table solve ⟨i.val, h⟩ else 0),
       List.ofFn klds128)
  else none

/-- At the count the source actually uses, the table builder returns exactly the three
parallel 128-entry tables. -/
theorem get_complex_frequency_table_128 (solve : SolverFn) :
    get_complex_frequency_table solve 128 =
      some (List.ofFn (wrs_table solve), List.ofFn (wis_table solve), List.ofFn klds128) := by
  unfold get_complex_frequency_table
  rw [if_pos (le_refl 128)]
  have h1 : (fun i : Fin 128 => if h : i.val < 128 then wrs_table solve ⟨i.val, h⟩ else 0)
      = wrs_table solve := by
    funext i
    rw [dif_pos i.isLt]
  have h2 : (fun i : Fin 128 => if h : i.val < 128 then wis_table solve ⟨i.val, h⟩ else 0)
      = wis_table solve := by
    funext i
    rw [dif_pos i.isLt]
  rw [h1, h2]

/-! ## Module classes: Driver, PoissonSolver, StepAmpere, and the four steppers -/

/-- The physics-options record: the boolean flags consulted by
`VelocityStepper.__init__`. -/
structure Physics where
  kinetic_real_wepw : Bool
  landau_damping : Bool

/-- Embeds `get_envelope(p_wL, p_wR, p_L, p_R, ax)`: the double-tanh window. -/
noncomputable def get_envelope (p_wL p_wR p_L p_R ax : ℝ) : ℝ :=
  0.5 * (Real.tanh ((ax - p_L) / p_wL) - Real.tanh ((ax - p_R) / p_wR))

/-- The pulse descriptor: the ten scalar fields read from `this_pulse`. -/
structure Pulse where
  k0 : ℝ
  w0 : ℝ
  dw0 : ℝ
  a0 : ℝ
  t_c : ℝ
  t_w : ℝ
  t_r : ℝ
  x_c : ℝ
  x_w : ℝ
  x_r : ℝ

/-- Embeds `Driver`: holds the spatial axis. -/
structure Driver (N : ℕ) where
  xax : ZMod N → ℝ

omit [NeZero N] in
/-- Embeds `Driver.__call__(this_pulse, current_time)`. -/
noncomputable def Driver.call (d : Driver N) (this_pulse : Pulse) (current_time : ℝ) :
    ZMod N → ℝ :=
  let kk := this_pulse.k0
  let ww := this_pulse.w0
  let dw := this_pulse.dw0
  let t_L := this_pulse.t_c - this_pulse.t_w * 0.5
  let t_R := this_pulse.t_c + this_pulse.t_w * 0.5
  let t_wL := this_pulse.t_r
  let t_wR := this_pulse.t_r
  let x_L := this_pulse.x_c - this_pulse.x_w * 0.5
  let x_R := this_pulse.x_c + this_pulse.x_w * 0.5
  let x_wL := this_pulse.x_r
  let x_wR := this_pulse.x_r
  let envelope_t := get_envelope t_wL t_wR t_L t_R current_time
  fun j =>
    let envelope_x := get_envelope x_wL x_wR x_L x_R (d.xax j)
    envelope_t * envelope_x * |kk| * this_pulse.a0 *
      Real.sin (kk * d.xax j - (ww + dw) * current_time)

/-- Embeds `PoissonSolver`: stores `one_over_kx`.  The constructor performs no validation. -/
structure PoissonSolver (N : ℕ) where
  one_over_kx : ZMod N → ℝ

omit [NeZero N] in
/-- Embeds `PoissonSolver.__init__(one_over_kx)`: plain field assignment, no check. -/
def PoissonSolver.init (one_over_kx : ZMod N → ℝ) : PoissonSolver N := ⟨one_over_kx⟩

/-- Embeds `PoissonSolver.__call__(dn) = jnp.real(jnp.fft.ifft(1j * one_over_kx *
jnp.fft.fft(dn)))`. -/
noncomputable def PoissonSolver.call (s : PoissonSolver N) (dn : ZMod N → ℝ) :
    ZMod N → ℝ :=
  fun j =>
    (ifft (fun k => Complex.I * (s.one_over_kx k : ℂ) * fft (fun i => (dn i : ℂ)) k) j).re

/-- Embeds `StepAmpere`: a module with no fields. -/
structure StepAmpere where
  mk ::

omit [NeZero N] in
/-- Embeds `StepAmpere.__call__(n, u) = n * u`. -/
def StepAmpere.call (_s : StepAmpere) (n u : ZMod N → ℝ) : ZMod N → ℝ :=
  fun j => n j * u j

/-- Embeds `DensityStepper`: holds the wavenumber array. -/
structure DensityStepper (N : ℕ) where
  kx : ZMod N → ℝ

/-- Embeds `DensityStepper.__call__(n, u) = -u * gradient(n, kx) - n * gradient(u, kx)`. -/
noncomputable def DensityStepper.call (s : DensityStepper N) (n u : ZMod N → ℝ) :
    ZMod N → ℝ :=
  fun j => -u j * gradient n s.kx j - n j * gradient u s.kx j

/-- Embeds `VelocityStepper`: wavenumber array plus the two precomputed closure filters. -/
structure VelocityStepper (M : ℕ) where
  kx : ZMod (2 * M) → ℝ
  wis : Fin (M + 1) → ℝ
  wr_corr : Fin (M + 1) → ℝ

/-- Embeds `VelocityStepper.__init__(kx, kxr, physics)`: builds the frequency table (the call
`get_complex_frequency_table(128)` returns the tables of
`get_complex_frequency_table_128`), then interpolates.  `wr_corr` uses
`left=0.0, right=wrs[-1]` then divides by `sqrt(1 + 3*kxr**2)` when
`kinetic_real_wepw` is set, else all ones; `wis` uses `left=0.0, right=wis[-1]` when
`landau_damping` is set, else all zeros. -/
noncomputable def VelocityStepper.init (solve : SolverFn) (kx : ZMod (2 * M) → ℝ)
    (kxr : Fin (M + 1) → ℝ) (physics : Physics) : VelocityStepper M :=
  let wrs := List.ofFn (wrs_table solve)
  let wis := List.ofFn (wis_table solve)
  let klds := List.ofFn klds128
  { kx := kx
    wr_corr :=
      if physics.kinetic_real_wepw then
        fun k => interp (kxr k) klds wrs 0.0 (wrs_table solve ⟨127, by norm_num⟩)
          / Real.sqrt (1 + 3 * kxr k ^ 2)
      else fun _ => 1
    wis :=
      if physics.landau_damping then
        fun k => interp (kxr k) klds wis 0.0 (wis_table solve ⟨127, by norm_num⟩)
      else fun _ => 0 }

/-- Embeds `landau_damping_term(u) = jnp.real(jnp.fft.irfft(wis * jnp.fft.rfft(u)))`. -/
noncomputable def VelocityStepper.landau_damping_term (s : VelocityStepper M)
    (u : ZMod (2 * M) → ℝ) : ZMod (2 * M) → ℝ :=
  irfft (fun k => (s.wis k : ℂ) * rfft u k)

/-- Embeds `restoring_force_term(gradp_over_nm) =
jnp.real(jnp.fft.irfft(wr_corr * jnp.fft.rfft(gradp_over_nm)))`. -/
noncomputable def VelocityStepper.restoring_force_term (s : VelocityStepper M)
    (gradp_over_nm : ZMod (2 * M) → ℝ) : ZMod (2 * M) → ℝ :=
  irfft (fun k => (s.wr_corr k : ℂ) * rfft gradp_over_nm k)

/-- Embeds `VelocityStepper.__call__(n, u, p_over_m, q_over_m_times_e, delta)`. -/
noncomputable def VelocityStepper.call (s : VelocityStepper M)
    (n u p_over_m q_over_m_times_e delta : ZMod (2 * M) → ℝ) : ZMod (2 * M) → ℝ :=
  fun j =>
    -u j * gradient u s.kx j
      - s.restoring_force_term (fun i => gradient p_over_m s.kx i / n i) j
      - q_over_m_times_e j
      + s.landau_damping_term u j / (1.0 + delta j ^ 2)

/-- Embeds `EnergyStepper`: wavenumber array and adiabatic index. -/
structure EnergyStepper (N : ℕ) where
  kx : ZMod N → ℝ
  gamma : ℝ

/-- Embeds `EnergyStepper.__call__(n, u, p_over_m, q_over_m_times_e)`; the heat-flux term and
the drive coupling are commented out in the source and deliberately absent. -/
noncomputable def EnergyStepper.call (s : EnergyStepper N)
    (n u p_over_m q_over_m_times_e : ZMod N → ℝ) : ZMod N → ℝ :=
  fun j => -u j * gradient p_over_m s.kx j - s.gamma * p_over_m j * gradient u s.kx j

/-- Embeds `ParticleTrapper`: its own wavenumber arrays and damping filter. -/
structure ParticleTrapper (M : ℕ) where
  kxr : Fin (M + 1) → ℝ
  wis : Fin (M + 1) → ℝ
  kx : ZMod (2 * M) → ℝ

/-- Embeds `ParticleTrapper.__init__(kxr, kx)`: interpolates the imaginary-frequency table with
BOTH extrapolation boundaries set to `0.0`; no option flag is consulted (the real-part
filter `wrs` is commented out in the source). -/
noncomputable def ParticleTrapper.init (solve : SolverFn) (kxr : Fin (M + 1) → ℝ)
    (kx : ZMod (2 * M) → ℝ) : ParticleTrapper M :=
  { kxr := kxr
    kx := kx
    wis := fun k => interp (kxr k) (List.ofFn klds128) (List.ofFn (wis_table solve)) 0.0 0.0 }

/-- Embeds `ParticleTrapper.__call__(e, delta) = -3.757 * gradient(delta, kx)
+ 100*abs(irfft(rfft(e) * wis)) - 0.001 * delta`. -/
noncomputable def ParticleTrapper.call (s : ParticleTrapper M) (e delta : ZMod (2 * M) → ℝ) :
    ZMod (2 * M) → ℝ :=
  fun j =>
    -3.757 * gradient delta s.kx j
      + 100 * |irfft (fun k => rfft e k * (s.wis k : ℂ)) j|
      - 0.001 * delta j

/-! ## Auxiliary stepper lemmas -/

theorem rfft_zero : rfft (M := M) (fun _ => 0) = fun _ => 0 := by
  funext k
  unfold rfft
  have h : (fun i : ZMod (2 * M) => ((0 : ℝ) : ℂ)) = fun _ => (0 : ℂ) := by
    funext i
    exact Complex.ofReal_zero
  rw [h, fft_zeroFun]

/-- The zero Fourier mode of the full transform is the grid sum. -/
theorem fft_zero_mode (f : ZMod N → ℂ) : fft f 0 = ∑ j : ZMod N, f j := by
  rw [fft_apply]
  simp

omit [NeZero M] in
theorem velocity_init_kx (solve : SolverFn) (kx : ZMod (2 * M) → ℝ)
    (kxr : Fin (M + 1) → ℝ) (physics : Physics) :
    (VelocityStepper.init solve kx kxr physics).kx = kx := rfl

/-- The inverse transform of a real linear combination of spectra is the combination of
the inverse transforms. -/
theorem ifft_linear_combo (a b : ℝ) (X Y : ZMod N → ℂ) (j : ZMod N) :
    ifft (fun k => (a : ℂ) * X k + (b : ℂ) * Y k) j
      = (a : ℂ) * ifft X j + (b : ℂ) * ifft Y j := by
  simp only [ifft_apply]
  have hsum : (∑ k : ZMod N, ZMod.stdAddChar (k * j) * ((a : ℂ) * X k + (b : ℂ) * Y k))
      = (a : ℂ) * ∑ k : ZMod N, ZMod.stdAddChar (k * j) * X k
        + (b : ℂ) * ∑ k : ZMod N, ZMod.stdAddChar (k * j) * Y k := by
    rw [Finset.mul_sum, Finset.mul_sum, ← Finset.sum_add_distrib]
    exact Finset.sum_congr rfl fun k _ => by ring
  rw [hsum]
  ring

/-- C2: the ParticleTrapper output is
`-3.757·(d(delta)/dx) + 100·|irfft(rfft(e)·wis_trap)| - 0.001·delta` with the shared
spectral differentiator, where `wis_trap` interpolates the imaginary-frequency table
onto `kxr` with BOTH extrapolation boundaries `0.0`, unconditionally; the rectified
forcing term is non-negative at every grid point. -/
theorem C2_particle_trapper {M : ℕ} [NeZero M] (solve : SolverFn)
    (kxr : Fin (M + 1) → ℝ) (kx : ZMod (2 * M) → ℝ) (e delta : ZMod (2 * M) → ℝ) :
    ((ParticleTrapper.init solve kxr kx).call e delta
      = fun j => -3.757 * gradient delta kx j
          + 100 * |irfft (fun k => rfft e k
              * (interp (kxr k) (List.ofFn klds128) (List.ofFn (wis_table solve))
                  0.0 0.0 : ℂ)) j|
          - 0.001 * delta j)
    ∧ ∀ j, 0 ≤ 100 * |irfft (fun k => rfft e k
        * ((ParticleTrapper.init solve kxr kx).wis k : ℂ)) j| :=
  ⟨rfl, fun j => by positivity⟩

/-- Witness for C2 at `M = 1`, zero solver, zero arrays. -/
theorem C2_particle_trapper_witness :
    ((ParticleTrapper.init (M := 1) (fun _ _ _ => 0) (fun _ => 0) (fun _ => 0)).call
        (fun _ => 0) (fun _ => 0)
      = fun j => -3.757 * gradient (fun _ => (0 : ℝ)) (fun _ => 0) j
          + 100 * |irfft (fun k => rfft (fun _ => (0 : ℝ)) k
              * (interp ((fun _ => (0 : ℝ)) k) (List.ofFn klds128)
                  (List.ofFn (wis_table (fun _ _ _ => 0))) 0.0 0.0 : ℂ)) j|
          - 0.001 * (fun _ => (0 : ℝ)) j)
    ∧ ∀ j, 0 ≤ 100 * |irfft (fun k => rfft (fun _ => (0 : ℝ)) k
        * (((ParticleTrapper.init (M := 1) (fun _ _ _ => 0) (fun _ => 0)
            (fun _ => 0)).wis k : ℝ) : ℂ)) j| :=
  C2_particle_trapper (fun _ _ _ => 0) (fun _ => 0) (fun _ => 0) (fun _ => 0) (fun _ => 0)

/-- C1: the VelocityStepper output equals
`-u·(du/dx) - restoring_force((d(p/m)/dx)/n) - q_over_m_times_e + landau_damping(u)/(1+δ²)`
with half-spectrum filter application; in the enabled cases `wr_corr` is the
interpolated real-frequency table (left `0.0`, right last entry) divided elementwise by
`sqrt(1 + 3·kxr²)`, and `wis` is the interpolated imaginary-frequency table (left
`0.0`, right last entry). -/
theorem C1_velocity_stepper {M : ℕ} [NeZero M] (solve : SolverFn) (kx : ZMod (2 * M) → ℝ)
    (kxr : Fin (M + 1) → ℝ) (physics : Physics)
    (n u p_over_m q_over_m_times_e delta : ZMod (2 * M) → ℝ) (hn : ∀ j, n j ≠ 0) :
    ((VelocityStepper.init solve kx kxr physics).call n u p_over_m q_over_m_times_e delta
      = fun j => -u j * gradient u kx j
          - irfft (fun k => ((VelocityStepper.init solve kx kxr physics).wr_corr k : ℂ)
              * rfft (fun i => gradient p_over_m kx i / n i) k) j
          - q_over_m_times_e j
          + irfft (fun k => ((VelocityStepper.init solve kx kxr physics).wis k : ℂ)
              * rfft u k) j / (1.0 + delta j ^ 2))
    ∧ (physics.kinetic_real_wepw = true →
        (VelocityStepper.init solve kx kxr physics).wr_corr
          = fun k => interp (kxr k) (List.ofFn klds128) (List.ofFn (wrs_table solve)) 0.0
              (wrs_table solve ⟨127, by norm_num⟩) / Real.sqrt (1 + 3 * kxr k ^ 2))
    ∧ (physics.landau_damping = true →
        (VelocityStepper.init solve kx kxr physics).wis
          = fun k => interp (kxr k) (List.ofFn klds128) (List.ofFn (wis_table solve)) 0.0
              (wis_table solve ⟨127, by norm_num⟩)) := by
  obtain ⟨kr, ld⟩ := physics
  refine ⟨rfl, fun h => ?_, fun h => ?_⟩
  · cases kr
    · cases h
    · rfl
  · cases ld
    · cases h
    · rfl

/-- Witness for C1 at `M = 1`, zero solver, both flags enabled, `n = 1`, other arrays
zero; the nonzero-density hypothesis is discharged by `1 ≠ 0`. -/
theorem C1_velocity_stepper_witness :
    ((VelocityStepper.init (M := 1) (fun _ _ _ => 0) (fun _ => 0) (fun _ => 0)
        ⟨true, true⟩).call (fun _ => 1) (fun _ => 0) (fun _ => 0) (fun _ => 0) (fun _ => 0)
      = fun j => -(fun _ => (0 : ℝ)) j * gradient (fun _ => (0 : ℝ)) (fun _ => 0) j
          - irfft (fun k => ((VelocityStepper.init (M := 1) (fun _ _ _ => 0) (fun _ => 0)
                (fun _ => 0) ⟨true, true⟩).wr_corr k : ℂ)
              * rfft (fun i => gradient (fun _ => (0 : ℝ)) (fun _ => 0) i
                  / (fun _ => (1 : ℝ)) i) k) j
          - (fun _ => (0 : ℝ)) j
          + irfft (fun k => ((VelocityStepper.init (M := 1) (fun _ _ _ => 0) (fun _ => 0)
                (fun _ => 0) ⟨true, true⟩).wis k : ℂ)
              * rfft (fun _ => 0) k) j / (1.0 + (fun _ => (0 : ℝ)) j ^ 2))
    ∧ ((true : Bool) = true →
        (VelocityStepper.init (M := 1) (fun _ _ _ => 0) (fun _ => 0) (fun _ => 0)
            ⟨true, true⟩).wr_corr
          = fun k => interp ((fun _ => (0 : ℝ)) k) (List.ofFn klds128)
              (List.ofFn (wrs_table (fun _ _ _ => 0))) 0.0
              (wrs_table (fun _ _ _ => 0) ⟨127, by norm_num⟩)
              / Real.sqrt (1 + 3 * (fun _ => (0 : ℝ)) k ^ 2))
    ∧ ((true : Bool) = true →
        (VelocityStepper.init (M := 1) (fun _ _ _ => 0) (fun _ => 0) (fun _ => 0)
            ⟨true, true⟩).wis
          = fun k => interp ((fun _ => (0 : ℝ)) k) (List.ofFn klds128)
              (List.ofFn (wis_table (fun _ _ _ => 0))) 0.0
              (wis_table (fun _ _ _ => 0) ⟨127, by norm_num⟩)) :=
  C1_velocity_stepper (fun _ _ _ => 0) (fun _ => 0) (fun _ => 0) ⟨true, true⟩
    (fun _ => 1) (fun _ => 0) (fun _ => 0) (fun _ => 0) (fun _ => 0)
    (fun j => one_ne_zero)

/-- C3: with both option flags false the stored `wr_corr` is the all-ones array, `wis`
is the all-zero array, and the stepper output is the undamped, non-dispersive Euler
right-hand side `-u·(du/dx) - (d(p/m)/dx)/n - q_over_m_times_e` exactly. -/
theorem C3_velocity_disabled {M : ℕ} [NeZero M] (solve : SolverFn) (kx : ZMod (2 * M) → ℝ)
    (kxr : Fin (M + 1) → ℝ) (n u p_over_m q_over_m_times_e delta : ZMod (2 * M) → ℝ) :
    ((VelocityStepper.init solve kx kxr ⟨false, false⟩).wr_corr = fun _ => 1)
    ∧ ((VelocityStepper.init solve kx kxr ⟨false, false⟩).wis = fun _ => 0)
    ∧ (VelocityStepper.init solve kx kxr ⟨false, false⟩).call n u p_over_m
          q_over_m_times_e delta
        = fun j => -u j * gradient u kx j - gradient p_over_m kx j / n j
            - q_over_m_times_e j := by
  refine ⟨rfl, rfl, ?_⟩
  funext j
  have hRF : VelocityStepper.restoring_force_term
      (VelocityStepper.init solve kx kxr ⟨false, false⟩)
      (fun i => gradient p_over_m kx i / n i)
      = fun i => gradient p_over_m kx i / n i := by
    show irfft (fun k => ((1 : ℝ) : ℂ) * rfft (fun i => gradient p_over_m kx i / n i) k)
        = fun i => gradient p_over_m kx i / n i
    have h1 : (fun k => ((1 : ℝ) : ℂ) * rfft (M := M) (fun i => gradient p_over_m kx i / n i) k)
        = rfft (fun i => gradient p_over_m kx i / n i) := by
      funext k
      rw [Complex.ofReal_one, one_mul]
    rw [h1, irfft_rfft]
  have hLD : VelocityStepper.landau_damping_term
      (VelocityStepper.init solve kx kxr ⟨false, false⟩) u = fun _ => 0 := by
    show irfft (fun k => ((0 : ℝ) : ℂ) * rfft u k) = fun _ => 0
    have h0 : (fun k => ((0 : ℝ) : ℂ) * rfft (M := M) u k) = fun _ => (0 : ℂ) := by
      funext k
      rw [Complex.ofReal_zero, zero_mul]
    rw [h0, irfft_zero]
  have hc : (VelocityStepper.init solve kx kxr ⟨false, false⟩).call n u p_over_m
        q_over_m_times_e delta j
      = -u j * gradient u kx j
        - VelocityStepper.restoring_force_term
            (VelocityStepper.init solve kx kxr ⟨false, false⟩)
            (fun i => gradient p_over_m kx i / n i) j
        - q_over_m_times_e j
        + VelocityStepper.landau_damping_term
            (VelocityStepper.init solve kx kxr ⟨false, false⟩) u j
          / (1.0 + delta j ^ 2) := rfl
  rw [hc, hRF, hLD]
  norm_num

/-- Witness for C3 at `M = 1`, zero solver, `n = 1`, other arrays zero. -/
theorem C3_velocity_disabled_witness :
    ((VelocityStepper.init (M := 1) (fun _ _ _ => 0) (fun _ => 0) (fun _ => 0)
        ⟨false, false⟩).wr_corr = fun _ => 1)
    ∧ ((VelocityStepper.init (M := 1) (fun _ _ _ => 0) (fun _ => 0) (fun _ => 0)
        ⟨false, false⟩).wis = fun _ => 0)
    ∧ (VelocityStepper.init (M := 1) (fun _ _ _ => 0) (fun _ => 0) (fun _ => 0)
          ⟨false, false⟩).call (fun _ => 1) (fun _ => 0) (fun _ => 0) (fun _ => 0)
          (fun _ => 0)
        = fun j => -(fun _ => (0 : ℝ)) j * gradient (fun _ => (0 : ℝ)) (fun _ => 0) j
            - gradient (fun _ => (0 : ℝ)) (fun _ => 0) j / (fun _ => (1 : ℝ)) j
            - (fun _ => (0 : ℝ)) j :=
  C3_velocity_disabled (fun _ _ _ => 0) (fun _ => 0) (fun _ => 0) (fun _ => 1)
    (fun _ => 0) (fun _ => 0) (fun _ => 0) (fun _ => 0)

/-- C8: with standard FFT wavenumber ordering (`kx 0 = 0`) and both option flags
disabled, the equilibrium snapshot `n = 1, u = 0, p_over_m = 1, q_over_m_times_e = 0,
delta = 0, e = 0` makes all four steppers return the all-zero array. -/
theorem C8_equilibrium {M : ℕ} [NeZero M] (solve : SolverFn) (kx : ZMod (2 * M) → ℝ)
    (kxr : Fin (M + 1) → ℝ) (gamma : ℝ) (hkx : kx 0 = 0) :
    (DensityStepper.mk kx).call (fun _ => 1) (fun _ => 0) = (fun _ => 0)
    ∧ (VelocityStepper.init solve kx kxr ⟨false, false⟩).call (fun _ => 1) (fun _ => 0)
        (fun _ => 1) (fun _ => 0) (fun _ => 0) = (fun _ => 0)
    ∧ (EnergyStepper.mk kx gamma).call (fun _ => 1) (fun _ => 0) (fun _ => 1)
        (fun _ => 0) = (fun _ => 0)
    ∧ (ParticleTrapper.init solve kxr kx).call (fun _ => 0) (fun _ => 0)
        = (fun _ => 0) := by
  refine ⟨?_, ?_, ?_, ?_⟩
  · funext j
    simp [DensityStepper.call, gradient_zero, gradient_const kx hkx]
  · funext j
    simp [VelocityStepper.call, VelocityStepper.restoring_force_term,
      VelocityStepper.landau_damping_term, velocity_init_kx, gradient_zero,
      gradient_const kx hkx, rfft_zero, irfft_zero]
  · funext j
    simp [EnergyStepper.call, gradient_zero, gradient_const kx hkx]
  · funext j
    simp [ParticleTrapper.call, gradient_zero, rfft_zero, irfft_zero]

/-- Witness for C8 at `M = 1`, zero solver, `kx = 0` (which has `kx 0 = 0`),
`gamma = 1`. -/
theorem C8_equilibrium_witness :
    (DensityStepper.mk (fun _ => (0 : ℝ)) : DensityStepper (2 * 1)).call (fun _ => 1)
        (fun _ => 0) = (fun _ => 0)
    ∧ (VelocityStepper.init (M := 1) (fun _ _ _ => 0) (fun _ => 0) (fun _ => 0)
        ⟨false, false⟩).call (fun _ => 1) (fun _ => 0) (fun _ => 1) (fun _ => 0)
        (fun _ => 0) = (fun _ => 0)
    ∧ (EnergyStepper.mk (fun _ => (0 : ℝ)) 1 : EnergyStepper (2 * 1)).call (fun _ => 1)
        (fun _ => 0) (fun _ => 1) (fun _ => 0) = (fun _ => 0)
    ∧ (ParticleTrapper.init (M := 1) (fun _ _ _ => 0) (fun _ => 0) (fun _ => 0)).call
        (fun _ => 0) (fun _ => 0) = (fun _ => 0) :=
  C8_equilibrium (fun _ _ _ => 0) (fun _ => 0) (fun _ => 0) 1 rfl

/-- C5 counterexample: constructing a `PoissonSolver` from an array whose `k = 0` entry
is `1` succeeds and stores that entry untouched — no rejection and no zeroing happens
at construction time. -/
theorem C5_counterexample :
    (PoissonSolver.init (N := 1) (fun _ => 1)).one_over_kx 0 = 1 ∧ (1 : ℝ) ≠ 0 :=
  ⟨rfl, one_ne_zero⟩

/-- C5 (amended): construction stores `one_over_kx` verbatim and performs no
enforcement; nevertheless, because the returned field is the real part and
`one_over_kx` is real, the `k = 0` Fourier mode (the grid sum) of the output is zero
for every input `dn`, whatever `one_over_kx 0` is. -/
theorem C5_poisson_zero_mode {N : ℕ} [NeZero N] (one_over_kx dn : ZMod N → ℝ) :
    (PoissonSolver.init one_over_kx).one_over_kx = one_over_kx
    ∧ ∑ j : ZMod N, (PoissonSolver.init one_over_kx).call dn j = 0 := by
  refine ⟨rfl, ?_⟩
  show (∑ j : ZMod N,
    (ifft (fun k => Complex.I * (one_over_kx k : ℂ) * fft (fun i => (dn i : ℂ)) k) j).re) = 0
  rw [← Complex.re_sum, sum_ifft]
  show (Complex.I * (one_over_kx 0 : ℂ) * fft (fun i => (dn i : ℂ)) 0).re = 0
  rw [fft_zero_mode]
  have hsum : (∑ j : ZMod N, ((dn j : ℝ) : ℂ)) = ((∑ j : ZMod N, dn j : ℝ) : ℂ) := by
    push_cast
    rfl
  rw [hsum]
  simp [Complex.mul_re, Complex.mul_im]

/-- Witness for C5 at `N = 1`, `one_over_kx = 1`, `dn = 1`. -/
theorem C5_poisson_zero_mode_witness :
    (PoissonSolver.init (N := 1) (fun _ => 1)).one_over_kx = (fun _ => 1)
    ∧ ∑ j : ZMod 1, (PoissonSolver.init (N := 1) (fun _ => 1)).call (fun _ => 1) j = 0 :=
  C5_poisson_zero_mode (fun _ => 1) (fun _ => 1)

/-- C4 counterexample: at count `129` the call succeeds but the three returned arrays
have lengths `(129, 129, 128)` — they are not same-length, so the claim's "for every
count num" fails. -/
theorem C4_counterexample :
    (get_complex_frequency_table (fun _ _ _ => 0) 129).map
        (fun t => (t.1.length, t.2.1.length, t.2.2.length)) = some (129, 129, 128)
    ∧ (129 : ℕ) ≠ 128 := by
  refine ⟨?_, by norm_num⟩
  unfold get_complex_frequency_table
  rw [if_pos (by norm_num)]
  simp only [Option.map_some', List.length_ofFn]

/-- C4 (amended): the wavenumber table always has 128 entries linearly spaced over
`[0.2, 0.4]`, strictly increasing; for `num = 128` the builder returns three
same-length arrays whose `wrs`/`wis` entries are the real/imaginary parts of the
solver's root at `(1.0, 1.0, klds i)`; for `num < 128` the builder fails
(IndexError); for EVERY `num ≥ 128` the returned arrays have lengths
`(num, num, 128)`, so a successful call yields same-length arrays only when
`num = 128`; the entries are real numbers (finite by construction of the
embedding). -/
theorem C4_frequency_table (solve : SolverFn) (i : Fin 128) (m : ℕ) (hm : m < 128)
    (num : ℕ) (hnum : 128 ≤ num) :
    get_complex_frequency_table solve 128
        = some (List.ofFn (wrs_table solve), List.ofFn (wis_table solve),
            List.ofFn klds128)
    ∧ (List.ofFn (wrs_table solve)).length = 128
    ∧ (List.ofFn (wis_table solve)).length = 128
    ∧ (List.ofFn klds128).length = 128
    ∧ StrictMono klds128
    ∧ klds128 0 = 0.2
    ∧ klds128 ⟨127, by norm_num⟩ = 0.4
    ∧ wrs_table solve i = (solve 1.0 1.0 (klds128 i)).re
    ∧ wis_table solve i = (solve 1.0 1.0 (klds128 i)).im
    ∧ get_complex_frequency_table solve m = none
    ∧ (get_complex_frequency_table solve num).map
        (fun t => (t.1.length, t.2.1.length, t.2.2.length)) = some (num, num, 128)
    ∧ (∀ wrs wis klds : List ℝ,
        get_complex_frequency_table solve num = some (wrs, wis, klds) →
        wrs.length = klds.length → num = 128) := by
  have hlen_num : (get_complex_frequency_table solve num).map
      (fun t => (t.1.length, t.2.1.length, t.2.2.length)) = some (num, num, 128) := by
    unfold get_complex_frequency_table
    rw [if_pos hnum]
    simp only [Option.map_some', List.length_ofFn]
  have honly : ∀ wrs wis klds : List ℝ,
      get_complex_frequency_table solve num = some (wrs, wis, klds) →
      wrs.length = klds.length → num = 128 := by
    intro wrs wis klds hsome hlen
    have h2 := hlen_num
    rw [hsome] at h2
    simp only [Option.map_some', Option.some.injEq, Prod.mk.injEq] at h2
    obtain ⟨ha, hb, hc⟩ := h2
    omega
  refine ⟨get_complex_frequency_table_128 solve, by rw [List.length_ofFn],
    by rw [List.length_ofFn], by rw [List.length_ofFn], ?_, ?_, ?_, rfl, rfl, ?_,
    hlen_num, honly⟩
  · intro a b hab
    unfold klds128
    have hstep : (0 : ℝ) < (0.4 - 0.2) / 127 := by norm_num
    have hcast : (a.val : ℝ) < b.val := by
      exact_mod_cast hab
    nlinarith
  · unfold klds128
    norm_num
  · unfold klds128
    norm_num
  · unfold get_complex_frequency_table
    rw [if_neg (by omega)]

/-- Witness for C4 at the zero solver, table row `0`, failing count `127`, oversized
count `129`. -/
theorem C4_frequency_table_witness :
    get_complex_frequency_table (fun _ _ _ => 0) 128
        = some (List.ofFn (wrs_table (fun _ _ _ => 0)),
            List.ofFn (wis_table (fun _ _ _ => 0)), List.ofFn klds128)
    ∧ (List.ofFn (wrs_table (fun _ _ _ => 0))).length = 128
    ∧ (List.ofFn (wis_table (fun _ _ _ => 0))).length = 128
    ∧ (List.ofFn klds128).length = 128
    ∧ StrictMono klds128
    ∧ klds128 0 = 0.2
    ∧ klds128 ⟨127, by norm_num⟩ = 0.4
    ∧ wrs_table (fun _ _ _ => 0) 0 = ((fun _ _ _ => (0 : ℂ)) (1.0 : ℝ) (1.0 : ℝ)
        (klds128 0)).re
    ∧ wis_table (fun _ _ _ => 0) 0 = ((fun _ _ _ => (0 : ℂ)) (1.0 : ℝ) (1.0 : ℝ)
        (klds128 0)).im
    ∧ get_complex_frequency_table (fun _ _ _ => 0) 127 = none
    ∧ (get_complex_frequency_table (fun _ _ _ => 0) 129).map
        (fun t => (t.1.length, t.2.1.length, t.2.2.length)) = some (129, 129, 128)
    ∧ (∀ wrs wis klds : List ℝ,
        get_complex_frequency_table (fun _ _ _ => 0) 129 = some (wrs, wis, klds) →
        wrs.length = klds.length → 129 = 128) :=
  C4_frequency_table (fun _ _ _ => 0) 0 127 (by norm_num) 129 (by norm_num)

end ES1D

namespace ES1D

/-! ## Claim theorems -/

/-- C10: the call `StepAmpere()(n, u)` returns the elementwise product `n·u`; the operator is
part of the core's surface with exactly this behaviour. -/
theorem C10_step_ampere {N : ℕ} (n u : ZMod N → ℝ) :
    StepAmpere.call StepAmpere.mk n u = fun j => n j * u j := rfl

/-- C6: for every pulse descriptor and time scalar, the Driver returns elementwise
`envelope_t(t)·envelope_x(x)·|k0|·a0·sin(k0·x − (w0+dw0)·t)` with double-tanh windows
centred at `t_c` (resp. `x_c`), half-width `t_w/2` (resp. `x_w/2`) and rise `t_r`
(resp. `x_r`); zero widths use the same formula with coincident edges. -/
theorem C6_driver {N : ℕ} (d : Driver N) (p : Pulse) (t : ℝ) :
    d.call p t = fun j =>
      (0.5 * (Real.tanh ((t - (p.t_c - p.t_w / 2)) / p.t_r)
        - Real.tanh ((t - (p.t_c + p.t_w / 2)) / p.t_r)))
      * (0.5 * (Real.tanh ((d.xax j - (p.x_c - p.x_w / 2)) / p.x_r)
        - Real.tanh ((d.xax j - (p.x_c + p.x_w / 2)) / p.x_r)))
      * |p.k0| * p.a0 * Real.sin (p.k0 * d.xax j - (p.w0 + p.dw0) * t) := by
  funext j
  show get_envelope p.t_r p.t_r (p.t_c - p.t_w * 0.5) (p.t_c + p.t_w * 0.5) t
      * get_envelope p.x_r p.x_r (p.x_c - p.x_w * 0.5) (p.x_c + p.x_w * 0.5) (d.xax j)
      * |p.k0| * p.a0 * Real.sin (p.k0 * d.xax j - (p.w0 + p.dw0) * t) = _
  unfold get_envelope
  norm_num
  ring_nf
  tauto

/-- C7: the EnergyStepper output is `-u·(d(p/m)/dx) - gamma·(p/m)·(du/dx)`, built from
the shared spectral differentiator, and is independent of the `n` and
`q_over_m_times_e` arguments. -/
theorem C7_energy_stepper {N : ℕ} [NeZero N] (kx : ZMod N → ℝ) (gamma : ℝ)
    (n u p_over_m q_over_m_times_e n2 q2 : ZMod N → ℝ) :
    (EnergyStepper.mk kx gamma).call n u p_over_m q_over_m_times_e
        = (fun j => -u j * gradient p_over_m kx j - gamma * p_over_m j * gradient u kx j)
      ∧ (EnergyStepper.mk kx gamma).call n u p_over_m q_over_m_times_e
        = (EnergyStepper.mk kx gamma).call n2 u p_over_m q2 :=
  ⟨rfl, rfl⟩

/-- Witness for C7 at `N = 1`, `kx = 0`, `gamma = 1`, equilibrium-like arrays and a
changed `(n, q_over_m_times_e)` pair. -/
theorem C7_energy_stepper_witness :
    (EnergyStepper.mk (fun _ => (0 : ℝ)) 1 : EnergyStepper 1).call
          (fun _ => 1) (fun _ => 0) (fun _ => 1) (fun _ => 0)
        = (fun j => -(fun _ => (0 : ℝ)) j * gradient (fun _ => (1 : ℝ)) (fun _ => 0) j
            - 1 * (fun _ => (1 : ℝ)) j * gradient (fun _ => (0 : ℝ)) (fun _ => 0) j)
      ∧ (EnergyStepper.mk (fun _ => (0 : ℝ)) 1 : EnergyStepper 1).call
          (fun _ => 1) (fun _ => 0) (fun _ => 1) (fun _ => 0)
        = (EnergyStepper.mk (fun _ => (0 : ℝ)) 1 : EnergyStepper 1).call
          (fun _ => 2) (fun _ => 0) (fun _ => 1) (fun _ => 3) :=
  C7_energy_stepper (fun _ => 0) 1 (fun _ => 1) (fun _ => 0) (fun _ => 1) (fun _ => 0)
    (fun _ => 2) (fun _ => 3)

/-- C9: the spectral differentiator is a linear operator:
`gradient(a·f + b·g, k) = a·gradient(f, k) + b·gradient(g, k)`. -/
theorem C9_gradient_linear {N : ℕ} [NeZero N] (a b : ℝ) (f g kx : ZMod N → ℝ) :
    gradient (fun i => a * f i + b * g i) kx
      = fun j => a * gradient f kx j + b * gradient g kx j := by
  funext j
  show (ifft (fun k => Complex.I * (kx k : ℂ)
      * fft (fun i => ((a * f i + b * g i : ℝ) : ℂ)) k) j).re = _
  have hfft : ∀ k : ZMod N, fft (fun i => ((a * f i + b * g i : ℝ) : ℂ)) k
      = (a : ℂ) * fft (fun i => (f i : ℂ)) k + (b : ℂ) * fft (fun i => (g i : ℂ)) k := by
    intro k
    simp only [fft_apply]
    rw [Finset.mul_sum, Finset.mul_sum, ← Finset.sum_add_distrib]
    refine Finset.sum_congr rfl fun i _ => ?_
    push_cast
    ring
  have hv : (fun k => Complex.I * (kx k : ℂ) * fft (fun i => ((a * f i + b * g i : ℝ) : ℂ)) k)
      = fun k => (a : ℂ) * (Complex.I * (kx k : ℂ) * fft (fun i => (f i : ℂ)) k)
        + (b : ℂ) * (Complex.I * (kx k : ℂ) * fft (fun i => (g i : ℂ)) k) := by
    funext k
    rw [hfft k]
    ring
  rw [hv, ifft_linear_combo]
  show ((a : ℂ) * ifft (fun k => Complex.I * (kx k : ℂ) * fft (fun i => (f i : ℂ)) k) j
      + (b : ℂ) * ifft (fun k => Complex.I * (kx k : ℂ) * fft (fun i => (g i : ℂ)) k) j).re
    = a * (ifft (fun k => Complex.I * (kx k : ℂ) * fft (fun i => (f i : ℂ)) k) j).re
      + b * (ifft (fun k => Complex.I * (kx k : ℂ) * fft (fun i => (g i : ℂ)) k) j).re
  simp [Complex.add_re, Complex.mul_re]

/-- Witness for C9 at `N = 1`, `a = 2`, `b = 3`, `f = g = 0`, `kx = 0`. -/
theorem C9_gradient_linear_witness :
    gradient (N := 1) (fun i => 2 * (fun _ => (0 : ℝ)) i + 3 * (fun _ => (0 : ℝ)) i)
        (fun _ => 0)
      = fun j => 2 * gradient (N := 1) (fun _ => (0 : ℝ)) (fun _ => 0) j
          + 3 * gradient (N := 1) (fun _ => (0 : ℝ)) (fun _ => 0) j :=
  C9_gradient_linear 2 3 (fun _ => 0) (fun _ => 0) (fun _ => 0)
